import Mathlib

/-!
Verification of the Random-Challenge repository's metric and scoring engine.

The Python sources are embedded shallowly:
* floating-point arithmetic is modelled over `ℚ` (and over `ℝ` where
  logarithms occur);
* Python dicts keyed by metric name become functions `String → Option ℚ`;
* a Python float division whose denominator can be zero (and which the code
  does not guard) is modelled as an `Option` value, `none` standing for the
  raised `ZeroDivisionError` / non-finite IEEE result.
-/

/-! ## Embedding of src/checker/randomness_checker.py -/

/-- One row of the bounds table `mt_randomness_bounds.csv`, with the columns
read by `check_sequence_randomness`. -/
structure BoundsRow where
  metric : String
  expected_mean : ℚ
  expected_std : ℚ
  bound95Lower : ℚ
  bound95Upper : ℚ
  bound99Lower : ℚ
  bound99Upper : ℚ
  interpretation : String
deriving DecidableEq

/-- The `test_metrics` dict: a partial map from metric name to value. -/
def TestMetrics : Type := String → Option ℚ

/-- The `confidence_level` parameter; the code documents the two admissible
values 95 and 99 (any other value would fail the column lookup). -/
inductive ConfLevel where
  | c95
  | c99
deriving DecidableEq

def ConfLevel.toNat : ConfLevel → ℕ
  | .c95 => 95
  | .c99 => 99

/-- `row[bound_col + 'lower']` for the chosen confidence level. -/
def lowerBound (cl : ConfLevel) (row : BoundsRow) : ℚ :=
  match cl with
  | .c95 => row.bound95Lower
  | .c99 => row.bound99Lower

/-- `row[bound_col + 'upper']` for the chosen confidence level. -/
def upperBound (cl : ConfLevel) (row : BoundsRow) : ℚ :=
  match cl with
  | .c95 => row.bound95Upper
  | .c99 => row.bound99Upper

/-- `abs(value - row['expected_mean']) / row['expected_std']`, exactly as the
code writes it, with no guard on the denominator: when `expected_std` is `0`
the Python division by zero raises (plain floats) or yields a non-finite
value (numpy floats); `none` models that undefined outcome. -/
def stdDistance (value expectedMean expectedStd : ℚ) : Option ℚ :=
  if expectedStd = 0 then none else some (|value - expectedMean| / expectedStd)

/-- The record appended to `within_bounds` for a metric inside its bounds. -/
structure WithinRecord where
  metric : String
  value : ℚ
  lower : ℚ
  upper : ℚ
  distanceFromMean : Option ℚ
deriving DecidableEq

def sevExtreme : String := "extreme"

def sevHigh : String := "high"

def sevModerate : String := "moderate"

def dirBelow : String := "below"

def dirAbove : String := "above"

/-- The record appended to `outliers` for a metric outside its bounds. -/
structure OutlierRecord where
  metric : String
  value : ℚ
  lower : ℚ
  upper : ℚ
  distanceFromBound : ℚ
  relativeDistance : ℚ
  direction : String
  severity : String
  stdDist : Option ℚ
  interpretation : String
deriving DecidableEq

/-- Builds the outlier record: `distance_from_bound` to the violated bound,
`relative_distance` with the `expected_mean if expected_mean > 0 else 1`
fallback denominator, the direction tag and the severity tag. -/
def mkOutlier (cl : ConfLevel) (row : BoundsRow) (value : ℚ) : OutlierRecord :=
  let lower := lowerBound cl row
  let upper := upperBound cl row
  let distanceFromBound := if value < lower then lower - value else value - upper
  let direction := if value < lower then dirBelow else dirAbove
  let relativeDistance :=
    distanceFromBound / (if row.expected_mean > 0 then row.expected_mean else 1)
  let severity :=
    if relativeDistance > 1 then sevExtreme
    else if relativeDistance > 1/2 then sevHigh
    else sevModerate
  ⟨row.metric, value, lower, upper, distanceFromBound, relativeDistance,
    direction, severity, stdDistance value row.expected_mean row.expected_std,
    row.interpretation⟩

/-- The body of the `for _, row in bounds_table.iterrows()` loop: splits the
table's rows into the `within_bounds`, `outliers` and `missing_metrics`
lists. -/
def classifyMetrics (tm : TestMetrics) (cl : ConfLevel) :
    List BoundsRow → List WithinRecord × List OutlierRecord × List String
  | [] => ([], [], [])
  | row :: rest =>
    let (w, o, m) := classifyMetrics tm cl rest
    match tm row.metric with
    | none => (w, o, row.metric :: m)
    | some value =>
      if lowerBound cl row ≤ value ∧ value ≤ upperBound cl row then
        (⟨row.metric, value, lowerBound cl row, upperBound cl row,
          stdDistance value row.expected_mean row.expected_std⟩ :: w, o, m)
      else
        (w, mkOutlier cl row value :: o, m)

def assessHighlyLikelyRandom : String := "highly_likely_random"

def assessLikelyRandom : String := "likely_random"

def assessPossiblyRandom : String := "possibly_random"

def assessPossiblyNonRandom : String := "possibly_non_random"

def assessLikelyNonRandom : String := "likely_non_random"

/-- The assessment ladder of `check_sequence_randomness` (strict `>` at every
threshold). -/
def assess (score : ℚ) : String :=
  if score > 9/10 then assessHighlyLikelyRandom
  else if score > 8/10 then assessLikelyRandom
  else if score > 7/10 then assessPossiblyRandom
  else if score > 1/2 then assessPossiblyNonRandom
  else assessLikelyNonRandom

/-- The dict returned by `check_sequence_randomness`. -/
structure CheckResult where
  randomness_score : ℚ
  assessment : String
  confidence_level : ℕ
  total_metrics_tested : ℕ
  within_bounds_count : ℕ
  outlier_count : ℕ
  severe_outlier_count : ℕ
  missing_metrics_count : ℕ
  outliers : List OutlierRecord
  within_bounds : List WithinRecord
  missing_metrics : List String
deriving DecidableEq

/-- `check_sequence_randomness(test_metrics, bounds_table, confidence_level)`
with the bounds table passed explicitly (the CSV-loading fallback is I/O and
out of the embedding). -/
def check_sequence_randomness (tm : TestMetrics) (table : List BoundsRow)
    (cl : ConfLevel) : CheckResult :=
  let (w, o, m) := classifyMetrics tm cl table
  let total := w.length + o.length
  let score : ℚ := if total > 0 then (w.length : ℚ) / total else 0
  let severe := o.filter (fun x => x.severity == sevHigh || x.severity == sevExtreme)
  ⟨score, assess score, cl.toNat, total, w.length, o.length,
    severe.length, m.length, o, w, m⟩

/-! ## Helper lemmas about the checker -/

theorem check_fields (tm : TestMetrics) (table : List BoundsRow) (cl : ConfLevel) :
    check_sequence_randomness tm table cl =
      ⟨(if (classifyMetrics tm cl table).1.length + (classifyMetrics tm cl table).2.1.length > 0
          then ((classifyMetrics tm cl table).1.length : ℚ) /
            (((classifyMetrics tm cl table).1.length + (classifyMetrics tm cl table).2.1.length : ℕ) : ℚ)
          else 0),
        assess (if (classifyMetrics tm cl table).1.length + (classifyMetrics tm cl table).2.1.length > 0
          then ((classifyMetrics tm cl table).1.length : ℚ) /
            (((classifyMetrics tm cl table).1.length + (classifyMetrics tm cl table).2.1.length : ℕ) : ℚ)
          else 0),
        cl.toNat,
        (classifyMetrics tm cl table).1.length + (classifyMetrics tm cl table).2.1.length,
        (classifyMetrics tm cl table).1.length,
        (classifyMetrics tm cl table).2.1.length,
        ((classifyMetrics tm cl table).2.1.filter
          (fun x => x.severity == sevHigh || x.severity == sevExtreme)).length,
        (classifyMetrics tm cl table).2.2.length,
        (classifyMetrics tm cl table).2.1,
        (classifyMetrics tm cl table).1,
        (classifyMetrics tm cl table).2.2⟩ := rfl

/-- C1: the randomness score is the within-bounds count divided by the number
of scored metrics (within-bounds plus outliers), is 0 when nothing was
scored, and always lies in the interval [0, 1]. -/
theorem check_randomness_score_spec (tm : TestMetrics) (table : List BoundsRow)
    (cl : ConfLevel) :
    ((check_sequence_randomness tm table cl).randomness_score =
      if (check_sequence_randomness tm table cl).within_bounds_count +
          (check_sequence_randomness tm table cl).outlier_count = 0 then 0
      else ((check_sequence_randomness tm table cl).within_bounds_count : ℚ) /
        (((check_sequence_randomness tm table cl).within_bounds_count : ℚ) +
          ((check_sequence_randomness tm table cl).outlier_count : ℚ))) ∧
    0 ≤ (check_sequence_randomness tm table cl).randomness_score ∧
    (check_sequence_randomness tm table cl).randomness_score ≤ 1 := by
  rw [check_fields]
  set W := (classifyMetrics tm cl table).1.length with hW
  set O := (classifyMetrics tm cl table).2.1.length with hO
  by_cases h : W + O = 0
  · simp [h]
  · have hpos : 0 < W + O := Nat.pos_of_ne_zero h
    have hq : (0 : ℚ) < ((W + O : ℕ) : ℚ) := by exact_mod_cast hpos
    refine ⟨?_, ?_, ?_⟩
    · simp only [if_pos hpos, if_neg h]
      push_cast
      ring
    · simp only [if_pos hpos]
      positivity
    · simp only [if_pos hpos]
      rw [div_le_one hq]
      exact_mod_cast Nat.le_add_right W O

/-- C2: the assessment label is the threshold ladder with strict comparisons
applied to the randomness score; at the boundary, `assess (9/10)` is
`likely_random`, not `highly_likely_random`. -/
theorem check_assessment_thresholds (tm : TestMetrics) (table : List BoundsRow)
    (cl : ConfLevel) (s : ℚ)
    (hs : s = (check_sequence_randomness tm table cl).randomness_score) :
    (check_sequence_randomness tm table cl).assessment =
      (if s > 9/10 then assessHighlyLikelyRandom
       else if s > 8/10 then assessLikelyRandom
       else if s > 7/10 then assessPossiblyRandom
       else if s > 1/2 then assessPossiblyNonRandom
       else assessLikelyNonRandom) ∧
    assess (9/10) = assessLikelyRandom := by
  constructor
  · rw [check_fields] at hs ⊢
    rw [hs]
    rfl
  · show (if _ then _ else _) = _
    rw [if_neg (lt_irrefl ((9:ℚ)/10)), if_pos (by norm_num : (9:ℚ)/10 > 8/10)]

def mName (i : ℕ) : String := String.append (r"m") (toString i)

/-- A ten-row bounds table whose rows all use the interval [0, 1] at both
confidence levels, expected mean 1/2 and expected std 1. -/
def tableW : List BoundsRow :=
  (List.range 10).map (fun i => ⟨mName i, 1/2, 1, 0, 1, 0, 1, r""⟩)

/-- A metric record hitting nine rows of `tableW` inside bounds and the
tenth above its upper bound. -/
def tmW : TestMetrics := fun s =>
  if s = mName 9 then some 2
  else if (List.range 9).any (fun i => s == mName i) then some (1/2)
  else none

theorem check_assessment_thresholds_witness :
    (check_sequence_randomness tmW tableW ConfLevel.c95).randomness_score = 9/10 ∧
    (check_sequence_randomness tmW tableW ConfLevel.c95).assessment = assessLikelyRandom := by
  refine ⟨by with_unfolding_all decide, ?_⟩
  have h := check_assessment_thresholds tmW tableW ConfLevel.c95 (9/10)
    (by with_unfolding_all decide)
  rw [h.1]
  rw [if_neg (lt_irrefl ((9:ℚ)/10)), if_pos (by norm_num : (9:ℚ)/10 > 8/10)]

theorem classify_cons (tm : TestMetrics) (cl : ConfLevel) (row : BoundsRow)
    (rest : List BoundsRow) :
    classifyMetrics tm cl (row :: rest) =
      match tm row.metric with
      | none => ((classifyMetrics tm cl rest).1, (classifyMetrics tm cl rest).2.1,
          row.metric :: (classifyMetrics tm cl rest).2.2)
      | some value =>
        if lowerBound cl row ≤ value ∧ value ≤ upperBound cl row then
          (⟨row.metric, value, lowerBound cl row, upperBound cl row,
            stdDistance value row.expected_mean row.expected_std⟩ ::
              (classifyMetrics tm cl rest).1,
            (classifyMetrics tm cl rest).2.1, (classifyMetrics tm cl rest).2.2)
        else ((classifyMetrics tm cl rest).1,
          mkOutlier cl row value :: (classifyMetrics tm cl rest).2.1,
          (classifyMetrics tm cl rest).2.2) := by
  cases h : tm row.metric <;> simp only [classifyMetrics, h]

/-- Each table row sends its metric name to exactly one of the three lists. -/
theorem classify_count_partition (tm : TestMetrics) (cl : ConfLevel)
    (table : List BoundsRow) (n : String) :
    ((classifyMetrics tm cl table).1.map WithinRecord.metric).count n +
      ((classifyMetrics tm cl table).2.1.map OutlierRecord.metric).count n +
      ((classifyMetrics tm cl table).2.2).count n =
      (table.map BoundsRow.metric).count n := by
  induction table with
  | nil => rfl
  | cons row rest ih =>
    rw [classify_cons]
    cases h : tm row.metric with
    | none =>
      simp only [List.map_cons, List.count_cons]
      omega
    | some value =>
      by_cases hb : lowerBound cl row ≤ value ∧ value ≤ upperBound cl row
      · simp only [if_pos hb, List.map_cons, List.count_cons]
        omega
      · simp only [if_neg hb, List.map_cons, List.count_cons, mkOutlier]
        omega

/-- A name the metric record does not contain is never classified. -/
theorem classify_none_counts (tm : TestMetrics) (cl : ConfLevel)
    (table : List BoundsRow) (n : String) (hn : tm n = none) :
    ((classifyMetrics tm cl table).1.map WithinRecord.metric).count n = 0 ∧
      ((classifyMetrics tm cl table).2.1.map OutlierRecord.metric).count n = 0 := by
  induction table with
  | nil => exact ⟨rfl, rfl⟩
  | cons row rest ih =>
    rw [classify_cons]
    cases h : tm row.metric with
    | none => simpa using ih
    | some value =>
      have hne : row.metric ≠ n := by
        intro he
        rw [he, hn] at h
        exact Option.noConfusion h
      by_cases hb : lowerBound cl row ≤ value ∧ value ≤ upperBound cl row
      · simp only [if_pos hb, List.map_cons, List.count_cons]
        simpa [hne] using ih
      · simp only [if_neg hb, List.map_cons, List.count_cons, mkOutlier]
        simpa [hne] using ih

/-- A name the metric record does contain is never reported missing. -/
theorem classify_isSome_missing (tm : TestMetrics) (cl : ConfLevel)
    (table : List BoundsRow) (n : String) (hn : (tm n).isSome) :
    ((classifyMetrics tm cl table).2.2).count n = 0 := by
  induction table with
  | nil => rfl
  | cons row rest ih =>
    rw [classify_cons]
    cases h : tm row.metric with
    | none =>
      have hne : row.metric ≠ n := by
        intro he
        rw [← he, h] at hn
        exact Bool.noConfusion hn
      simpa [List.count_cons, hne] using ih
    | some value =>
      by_cases hb : lowerBound cl row ≤ value ∧ value ≤ upperBound cl row
      · simpa [if_pos hb] using ih
      · simpa [if_neg hb] using ih

def extraName : String := "mystery_metric"

def redName : String := "redundancy"

/-- A one-row table that does not mention `extraName`. -/
def tableX : List BoundsRow := [⟨redName, 1/2, 1, 0, 1, 0, 1, r""⟩]

/-- A metric record containing both the table's metric and the extra name. -/
def tmX : TestMetrics := fun s =>
  if s = extraName then some 1
  else if s = redName then some (1/2)
  else none

/-- C3 counterexample: a metric name present in the record but absent from
the bounds table is not reported as missing (nor classified at all) — the
loop only ever looks at names that occur in the bounds table. -/
theorem check_missing_direction_counterexample :
    (tmX extraName).isSome = true ∧
    extraName ∉ tableX.map BoundsRow.metric ∧
    extraName ∉ (check_sequence_randomness tmX tableX ConfLevel.c95).missing_metrics ∧
    ((check_sequence_randomness tmX tableX ConfLevel.c95).within_bounds.map
      WithinRecord.metric).count extraName = 0 ∧
    ((check_sequence_randomness tmX tableX ConfLevel.c95).outliers.map
      OutlierRecord.metric).count extraName = 0 := by
  with_unfolding_all decide

/-- C3 (amended): a metric name in both the record and the bounds table is
classified exactly once (within-bounds or outlier) and not reported missing;
a table name absent from the record is reported missing exactly once and not
classified; a name absent from the bounds table is neither classified nor
reported missing. -/
theorem check_classification_partition (tm : TestMetrics) (table : List BoundsRow)
    (cl : ConfLevel) (n : String) (hnd : (table.map BoundsRow.metric).Nodup) :
    (n ∈ table.map BoundsRow.metric → (tm n).isSome →
      ((check_sequence_randomness tm table cl).within_bounds.map
          WithinRecord.metric).count n +
        ((check_sequence_randomness tm table cl).outliers.map
          OutlierRecord.metric).count n = 1 ∧
      n ∉ (check_sequence_randomness tm table cl).missing_metrics) ∧
    (n ∈ table.map BoundsRow.metric → tm n = none →
      n ∈ (check_sequence_randomness tm table cl).missing_metrics ∧
      ((check_sequence_randomness tm table cl).within_bounds.map
        WithinRecord.metric).count n = 0 ∧
      ((check_sequence_randomness tm table cl).outliers.map
        OutlierRecord.metric).count n = 0) ∧
    (n ∉ table.map BoundsRow.metric →
      n ∉ (check_sequence_randomness tm table cl).missing_metrics ∧
      ((check_sequence_randomness tm table cl).within_bounds.map
        WithinRecord.metric).count n = 0 ∧
      ((check_sequence_randomness tm table cl).outliers.map
        OutlierRecord.metric).count n = 0) := by
  rw [check_fields]
  dsimp only
  have hpart := classify_count_partition tm cl table n
  refine ⟨fun hmem hsome => ?_, fun hmem hnone => ?_, fun hmem => ?_⟩
  · have h3 := classify_isSome_missing tm cl table n hsome
    have htc : (table.map BoundsRow.metric).count n = 1 :=
      List.count_eq_one_of_mem hnd hmem
    exact ⟨by omega, List.count_eq_zero.mp h3⟩
  · have h2 := classify_none_counts tm cl table n hnone
    have htc : (table.map BoundsRow.metric).count n = 1 :=
      List.count_eq_one_of_mem hnd hmem
    have hm : 0 < ((classifyMetrics tm cl table).2.2).count n := by omega
    exact ⟨List.count_pos_iff.mp hm, h2.1, h2.2⟩
  · have htc : (table.map BoundsRow.metric).count n = 0 :=
      List.count_eq_zero.mpr hmem
    have hz1 : ((classifyMetrics tm cl table).1.map WithinRecord.metric).count n = 0 := by
      omega
    have hz2 : ((classifyMetrics tm cl table).2.1.map OutlierRecord.metric).count n = 0 := by
      omega
    have hz3 : ((classifyMetrics tm cl table).2.2).count n = 0 := by omega
    exact ⟨List.count_eq_zero.mp hz3, hz1, hz2⟩

theorem check_classification_partition_witness :
    ((check_sequence_randomness tmX tableX ConfLevel.c95).within_bounds.map
        WithinRecord.metric).count redName +
      ((check_sequence_randomness tmX tableX ConfLevel.c95).outliers.map
        OutlierRecord.metric).count redName = 1 ∧
    redName ∉ (check_sequence_randomness tmX tableX ConfLevel.c95).missing_metrics := by
  have h := check_classification_partition tmX tableX ConfLevel.c95 redName (by decide)
  exact h.1 (by decide) (by with_unfolding_all decide)

def zeroStdName : String := "flat_metric"

/-- A one-row table whose row has expected_std = 0. -/
def tableZ : List BoundsRow := [⟨zeroStdName, 5, 0, 0, 10, 0, 10, r""⟩]

def tmZ : TestMetrics := fun s => if s = zeroStdName then some 5 else none

/-- C4 counterexample: for a within-bounds metric whose row has
expected_std = 0, the recorded standardized distance is the undefined result
of an unguarded division by zero (modelled `none`), not 0. -/
theorem std_distance_guard_counterexample :
    (check_sequence_randomness tmZ tableZ ConfLevel.c95).within_bounds.map
      WithinRecord.distanceFromMean = [none] ∧
    (check_sequence_randomness tmZ tableZ ConfLevel.c95).within_bounds.map
      WithinRecord.distanceFromMean ≠ [some 0] := by
  with_unfolding_all decide

/-- C4 (amended): each within-bounds record's standardized distance is the
unguarded quotient |value − expected_mean| / expected_std of its table row —
a defined quotient exactly when expected_std ≠ 0, and the undefined result of
a zero division when expected_std = 0 (never the fallback 0 the spec
describes). -/
theorem check_std_distance_unguarded (tm : TestMetrics) (table : List BoundsRow)
    (cl : ConfLevel) (w : WithinRecord)
    (hw : w ∈ (check_sequence_randomness tm table cl).within_bounds) :
    ∃ row ∈ table, row.metric = w.metric ∧ tm row.metric = some w.value ∧
      w.distanceFromMean = stdDistance w.value row.expected_mean row.expected_std ∧
      (row.expected_std ≠ 0 →
        w.distanceFromMean = some (|w.value - row.expected_mean| / row.expected_std)) ∧
      (row.expected_std = 0 → w.distanceFromMean = none) := by
  rw [check_fields] at hw
  dsimp only at hw
  induction table with
  | nil => exact absurd hw (List.not_mem_nil w)
  | cons row rest ih =>
    rw [classify_cons] at hw
    cases h : tm row.metric with
    | none =>
      rw [h] at hw
      dsimp only at hw
      obtain ⟨r, hr, hrest⟩ := ih hw
      exact ⟨r, List.mem_cons_of_mem row hr, hrest⟩
    | some value =>
      rw [h] at hw
      dsimp only at hw
      by_cases hb : lowerBound cl row ≤ value ∧ value ≤ upperBound cl row
      · rw [if_pos hb] at hw
        dsimp only at hw
        rcases List.mem_cons.mp hw with he | hm
        · refine ⟨row, List.mem_cons_self row rest, ?_⟩
          subst he
          refine ⟨rfl, h, rfl, ?_, ?_⟩
          · intro hstd
            simp [stdDistance, hstd]
          · intro hstd
            simp [stdDistance, hstd]
        · obtain ⟨r, hr, hrest⟩ := ih hm
          exact ⟨r, List.mem_cons_of_mem row hr, hrest⟩
      · rw [if_neg hb] at hw
        dsimp only at hw
        obtain ⟨r, hr, hrest⟩ := ih hw
        exact ⟨r, List.mem_cons_of_mem row hr, hrest⟩

theorem check_std_distance_unguarded_witness :
    ∃ row ∈ tableZ, row.metric = zeroStdName ∧ tmZ row.metric = some 5 ∧
      (none : Option ℚ) = stdDistance 5 row.expected_mean row.expected_std ∧
      (row.expected_std ≠ 0 →
        (none : Option ℚ) = some (|(5:ℚ) - row.expected_mean| / row.expected_std)) ∧
      (row.expected_std = 0 → (none : Option ℚ) = none) :=
  check_std_distance_unguarded tmZ tableZ ConfLevel.c95 ⟨zeroStdName, 5, 0, 10, none⟩
    (by with_unfolding_all decide)

/-- With 99%-bounds containing the 95%-bounds row-wise, each row that is
within bounds at level 95 is within bounds at level 99, so the outlier list
at 99 never outgrows the one at 95. -/
theorem classify_outliers_nested (tm : TestMetrics) (table : List BoundsRow)
    (hns : ∀ row ∈ table, row.bound99Lower ≤ row.bound95Lower ∧
      row.bound95Upper ≤ row.bound99Upper) :
    (classifyMetrics tm ConfLevel.c99 table).2.1.length ≤
      (classifyMetrics tm ConfLevel.c95 table).2.1.length := by
  induction table with
  | nil => exact le_refl 0
  | cons row rest ih =>
    have ihr := ih (fun r hr => hns r (List.mem_cons_of_mem row hr))
    have hrow := hns row (List.mem_cons_self row rest)
    rw [classify_cons, classify_cons]
    cases h : tm row.metric with
    | none => exact ihr
    | some value =>
      dsimp only
      by_cases h95 : lowerBound ConfLevel.c95 row ≤ value ∧ value ≤ upperBound ConfLevel.c95 row
      · have h99 : lowerBound ConfLevel.c99 row ≤ value ∧ value ≤ upperBound ConfLevel.c99 row :=
          ⟨le_trans hrow.1 h95.1, le_trans h95.2 hrow.2⟩
        rw [if_pos h95, if_pos h99]
        exact ihr
      · rw [if_neg h95]
        by_cases h99 : lowerBound ConfLevel.c99 row ≤ value ∧ value ≤ upperBound ConfLevel.c99 row
        · rw [if_pos h99]
          dsimp only
          exact le_trans ihr (Nat.le_succ _)
        · rw [if_neg h99]
          dsimp only [List.length_cons]
          exact Nat.succ_le_succ ihr

/-- C6: for a bounds table in which every row's 99% interval contains its 95%
interval, the outlier count at confidence level 99 is at most the outlier
count at confidence level 95. -/
theorem check_outlier_count_monotone (tm : TestMetrics) (table : List BoundsRow)
    (hns : ∀ row ∈ table, row.bound99Lower ≤ row.bound95Lower ∧
      row.bound95Upper ≤ row.bound99Upper) :
    (check_sequence_randomness tm table ConfLevel.c99).outlier_count ≤
      (check_sequence_randomness tm table ConfLevel.c95).outlier_count := by
  rw [check_fields, check_fields]
  exact classify_outliers_nested tm table hns

theorem check_outlier_count_monotone_witness :
    (check_sequence_randomness tmW tableW ConfLevel.c99).outlier_count ≤
      (check_sequence_randomness tmW tableW ConfLevel.c95).outlier_count :=
  check_outlier_count_monotone tmW tableW (by with_unfolding_all decide)

/-! ## Embedding of src/exported_classifier/trans/lib/transition_probs.py -/

/-- `transitions[i, j]`: how many positions `t` have `sequence[t] = i` and
`sequence[t + step] = j` (the loop `for i in range(len(sequence) - step)`). -/
def transitionCount (z : List ℕ) (step : ℕ) (i j : ℕ) : ℕ :=
  (z.zip (z.drop step)).count (i, j)

/-- `row_sums[i]`: the numpy row sum of the count matrix. -/
def rowSum (z : List ℕ) (step b i : ℕ) : ℕ :=
  ∑ j in Finset.range b, transitionCount z step i j

/-- Entry (i, j) of the matrix returned by `calculate_transition_matrix`.
`np.divide(transitions, row_sums, where=row_sums!=0)` with the default
`out=None` allocates an EMPTY output array and, per the numpy ufunc
documentation, leaves the entries where the mask is false uninitialized;
`none` models such an uninitialized entry. The subsequent
`np.nan_to_num(probabilities)` replaces NaN and infinities, but every entry
the mask admits is a finite quotient, and an uninitialized entry holds
arbitrary memory, so `nan_to_num` does not produce the zero row the code's
comments intend. -/
def transitionProb (z : List ℕ) (step b i j : ℕ) : Option ℚ :=
  if rowSum z step b i = 0 then none
  else some ((transitionCount z step i j : ℚ) / (rowSum z step b i : ℚ))

/-- A row whose symbol does occur followed at distance `step` is a proper
probability row: its entries sum to exactly 1. -/
theorem transitionProb_row_sum_one (z : List ℕ) (step b i : ℕ)
    (h : rowSum z step b i ≠ 0) :
    ∑ j in Finset.range b, ((transitionProb z step b i j).getD 0) = 1 := by
  have hS : ((rowSum z step b i : ℕ) : ℚ) ≠ 0 := Nat.cast_ne_zero.mpr h
  simp only [transitionProb, if_neg h, Option.getD_some]
  rw [← Finset.sum_div, ← Nat.cast_sum]
  exact div_self hS

/-- C5: evaluation at the failing input. In `[1,1,1]` with step 1 the source
symbol 0 never occurs, so its row sum is 0 and all ten entries of row 0 are
left uninitialized by `np.divide(..., where=row_sums!=0)` — not explicitly
zeroed as the claim (and the code's own comments) state. Row 1, which has
transitions, is a correct non-negative probability row summing to 1. -/
theorem transition_matrix_zero_row_bug :
    rowSum [1, 1, 1] 1 10 0 = 0 ∧
    (∀ j ∈ Finset.range 10, transitionProb [1, 1, 1] 1 10 0 j = none) ∧
    rowSum [1, 1, 1] 1 10 1 ≠ 0 ∧
    (∑ j in Finset.range 10, ((transitionProb [1, 1, 1] 1 10 1 j).getD 0)) = 1 ∧
    (∀ j ∈ Finset.range 10, 0 ≤ (transitionProb [1, 1, 1] 1 10 1 j).getD 0) := by
  with_unfolding_all decide

/-! ## Embedding of src/exported_classifier/stat/lib/metrics.py -/

/-- Shannon entropy in bits over the observed symbol frequencies, as in
`redundancy`: `-sum((c/n) * math.log2(c/n) for c in freq.values())`; the
Counter iterates over the distinct symbols occurring in `z`. -/
noncomputable def entropy2 (z : List ℕ) : ℝ :=
  -∑ v in z.toFinset,
    ((z.count v : ℝ) / z.length) * Real.logb 2 ((z.count v : ℝ) / z.length)

/-- `redundancy(z, base) = 1 - entropy / log2(base)`, and `0.0` for an empty
sequence. -/
noncomputable def redundancy (z : List ℕ) (b : ℕ) : ℝ :=
  if z.length = 0 then 0 else 1 - entropy2 z / Real.logb 2 b

/-- C8: for every non-empty sequence over the alphabet {0..b-1} (with a
meaningful base b ≥ 2, so that `log2(base)` is nonzero), redundancy lies in
[0, 1]. -/
theorem redundancy_mem_unitInterval (z : List ℕ) (b : ℕ) (hz : z ≠ [])
    (hb : 2 ≤ b) (hvals : ∀ x ∈ z, x < b) :
    0 ≤ redundancy z b ∧ redundancy z b ≤ 1 := by
  have hn : 0 < z.length := List.length_pos.mpr hz
  have hn0 : z.length ≠ 0 := Nat.pos_iff_ne_zero.mp hn
  have hnR : (0:ℝ) < (z.length : ℝ) := by exact_mod_cast hn
  have hb2 : (2:ℝ) ≤ (b:ℝ) := by exact_mod_cast hb
  have hbR : (1:ℝ) < (b:ℝ) := lt_of_lt_of_le one_lt_two hb2
  have hbpos : (0:ℝ) < (b:ℝ) := lt_trans one_pos hbR
  have hlogb : 0 < Real.log b := Real.log_pos hbR
  have hlog2 : (0:ℝ) < Real.log 2 := Real.log_pos one_lt_two
  -- the frequency of each symbol that occurs is in (0, 1]
  have hppos : ∀ v ∈ z.toFinset, (0:ℝ) < (z.count v : ℝ) / z.length := by
    intro v hv
    have hc : 0 < z.count v := List.count_pos_iff.mpr (List.mem_toFinset.mp hv)
    have : (0:ℝ) < (z.count v : ℝ) := by exact_mod_cast hc
    positivity
  have hple : ∀ v ∈ z.toFinset, (z.count v : ℝ) / z.length ≤ 1 := by
    intro v hv
    rw [div_le_one hnR]
    exact_mod_cast List.count_le_length v z
  -- the frequencies sum to 1
  have hsump : ∑ v in z.toFinset, (z.count v : ℝ) / z.length = 1 := by
    rw [← Finset.sum_div]
    rw [div_eq_one_iff_eq (ne_of_gt hnR)]
    exact_mod_cast List.sum_toFinset_count_eq_length z
  -- at most b distinct symbols occur
  have hcard : z.toFinset.card ≤ b := by
    have hsub : z.toFinset ⊆ Finset.range b := by
      intro v hv
      exact Finset.mem_range.mpr (hvals v (List.mem_toFinset.mp hv))
    simpa using Finset.card_le_card hsub
  set S := ∑ v in z.toFinset,
    ((z.count v : ℝ) / z.length) * Real.log ((z.count v : ℝ) / z.length) with hS
  -- entropy in natural-log units
  have hent : entropy2 z = -(S / Real.log 2) := by
    rw [entropy2, hS, Finset.sum_div]
    congr 1
    refine Finset.sum_congr rfl (fun v hv => ?_)
    rw [Real.logb]
    ring
  have hSnonpos : S ≤ 0 := by
    rw [hS]
    refine Finset.sum_nonpos (fun v hv => ?_)
    refine mul_nonpos_iff.mpr (Or.inl ⟨?_, ?_⟩)
    · exact le_of_lt (hppos v hv)
    · exact Real.log_nonpos (le_of_lt (hppos v hv)) (hple v hv)
  -- Gibbs-style bound: -S ≤ log b via log x ≤ x - 1
  have hSbound : -S ≤ Real.log b := by
    have hterm : ∀ v ∈ z.toFinset,
        -(((z.count v : ℝ) / z.length) * Real.log ((z.count v : ℝ) / z.length)) -
          ((z.count v : ℝ) / z.length) * Real.log b ≤
        1 / (b:ℝ) - (z.count v : ℝ) / z.length := by
      intro v hv
      set p := (z.count v : ℝ) / z.length with hp
      have hp0 : 0 < p := hppos v hv
      have hpb : 0 < (p * b)⁻¹ := by positivity
      have hlog_le : Real.log ((p * b)⁻¹) ≤ (p * b)⁻¹ - 1 :=
        Real.log_le_sub_one_of_pos hpb
      have hmul : p * Real.log ((p * b)⁻¹) ≤ p * ((p * b)⁻¹ - 1) :=
        mul_le_mul_of_nonneg_left hlog_le (le_of_lt hp0)
      have hid : p * Real.log ((p * b)⁻¹) = -(p * Real.log p) - p * Real.log b := by
        rw [Real.log_inv, Real.log_mul (ne_of_gt hp0) (ne_of_gt hbpos)]
        ring
      have hrhs : p * ((p * b)⁻¹ - 1) = 1 / (b:ℝ) - p := by
        rw [mul_sub, mul_inv, ← mul_assoc, mul_inv_cancel₀ (ne_of_gt hp0)]
        rw [one_mul, mul_one, one_div]
      rw [hid, hrhs] at hmul
      exact hmul
    have hsum := Finset.sum_le_sum hterm
    have hlhs : ∑ v in z.toFinset,
        (-(((z.count v : ℝ) / z.length) * Real.log ((z.count v : ℝ) / z.length)) -
          ((z.count v : ℝ) / z.length) * Real.log b) = -S - Real.log b := by
      rw [Finset.sum_sub_distrib, ← Finset.sum_neg_distrib, ← Finset.sum_mul, hsump, one_mul]
    have hrhs : ∑ v in z.toFinset, (1 / (b:ℝ) - (z.count v : ℝ) / z.length) =
        z.toFinset.card * (1 / (b:ℝ)) - 1 := by
      rw [Finset.sum_sub_distrib, hsump, Finset.sum_const, nsmul_eq_mul]
    rw [hlhs, hrhs] at hsum
    have hfrac : (z.toFinset.card : ℝ) * (1 / (b:ℝ)) ≤ 1 := by
      rw [mul_one_div, div_le_one hbpos]
      exact_mod_cast hcard
    linarith
  -- the normalized entropy ratio is in [0, 1]
  have hratio : entropy2 z / Real.logb 2 b = -S / Real.log b := by
    rw [hent, Real.logb]
    field_simp
    ring
  have hr0 : 0 ≤ entropy2 z / Real.logb 2 b := by
    rw [hratio]
    have : 0 ≤ -S := neg_nonneg.mpr hSnonpos
    positivity
  have hr1 : entropy2 z / Real.logb 2 b ≤ 1 := by
    rw [hratio, div_le_one hlogb]
    exact hSbound
  rw [redundancy, if_neg hn0]
  constructor
  · linarith
  · linarith

theorem redundancy_mem_unitInterval_witness :
    0 ≤ redundancy [0, 1] 2 ∧ redundancy [0, 1] 2 ≤ 1 :=
  redundancy_mem_unitInterval [0, 1] 2 (by decide) (by decide) (by decide)

/-- `has_all(t)`: every symbol of `range(base)` occurs in the collected
run. -/
def hasAll (b : ℕ) (t : List ℕ) : Bool := decide (∀ i, i < b → i ∈ t)

/-- The inner scan of `coupon` for one starting index: the first `j` whose
prefix `s[0..j]` collects all symbols records `j + 1` (then breaks); `none`
when the suffix never completes a full set. -/
def completionLen (b : ℕ) (s : List ℕ) : Option ℕ :=
  ((List.range s.length).find? (fun j => hasAll b (s.take (j + 1)))).map (fun j => j + 1)

/-- `res`: one completion length per starting index that completes a set. -/
def couponRes (z : List ℕ) (b : ℕ) : List ℕ :=
  (List.range z.length).filterMap (fun i => completionLen b (z.drop i))

/-- `coupon(z)['mean']`: `statistics.mean(res)`, or `len(z) + 1` when no
starting position completes a full set. -/
def couponMean (z : List ℕ) (b : ℕ) : ℚ :=
  if couponRes z b = [] then (z.length : ℚ) + 1
  else ((couponRes z b).sum : ℚ) / ((couponRes z b).length : ℚ)

theorem list_length_mul_le_sum (l : List ℕ) (b : ℕ) (h : ∀ r ∈ l, b ≤ r) :
    l.length * b ≤ l.sum := by
  induction l with
  | nil => simp
  | cons x xs ih =>
    have hx := h x (List.mem_cons_self x xs)
    have hxs := ih (fun r hr => h r (List.mem_cons_of_mem x hr))
    simp only [List.length_cons, List.sum_cons, Nat.succ_mul]
    omega

/-- C10: every completion length recorded by `coupon` is at least `base`
(a run must contain all `base` distinct symbols), so when at least one
starting position completes a full set the reported mean is at least
`base`. -/
theorem coupon_mean_ge_base (z : List ℕ) (b : ℕ) (h : couponRes z b ≠ []) :
    (∀ r ∈ couponRes z b, b ≤ r) ∧ (b : ℚ) ≤ couponMean z b := by
  have hall : ∀ r ∈ couponRes z b, b ≤ r := by
    intro r hr
    obtain ⟨i, _, hc⟩ := List.mem_filterMap.mp hr
    obtain ⟨j, hj, hjr⟩ := Option.map_eq_some'.mp hc
    have hpred := List.find?_some hj
    have hmem : ∀ v, v < b → v ∈ ((z.drop i).take (j + 1)) := of_decide_eq_true hpred
    have hsub : Finset.range b ⊆ ((z.drop i).take (j + 1)).toFinset := by
      intro v hv
      exact List.mem_toFinset.mpr (hmem v (Finset.mem_range.mp hv))
    have hb1 : b ≤ ((z.drop i).take (j + 1)).toFinset.card := by
      simpa using Finset.card_le_card hsub
    have hb2 : ((z.drop i).take (j + 1)).toFinset.card ≤ ((z.drop i).take (j + 1)).length :=
      List.toFinset_card_le _
    have hb3 : ((z.drop i).take (j + 1)).length ≤ j + 1 := by
      rw [List.length_take]
      exact min_le_left _ _
    omega
  refine ⟨hall, ?_⟩
  have hlen : 0 < (couponRes z b).length := List.length_pos.mpr h
  have hlenR : (0:ℚ) < ((couponRes z b).length : ℚ) := by exact_mod_cast hlen
  rw [couponMean, if_neg h, le_div_iff₀ hlenR]
  calc (b : ℚ) * ((couponRes z b).length : ℚ)
      = (((couponRes z b).length * b : ℕ) : ℚ) := by push_cast; ring
    _ ≤ (((couponRes z b).sum : ℕ) : ℚ) := by
        exact_mod_cast list_length_mul_le_sum (couponRes z b) b hall

theorem coupon_mean_ge_base_witness :
    (∀ r ∈ couponRes [0, 1] 2, 2 ≤ r) ∧ (2 : ℚ) ≤ couponMean [0, 1] 2 :=
  coupon_mean_ge_base [0, 1] 2 (by decide)

/-! ## Embedding of generate_improvement_suggestions (src/local_server.py) -/

/-- The fields of an outlier dict that `generate_improvement_suggestions`
reads: the metric name and the deviation type tag (high / low). -/
structure DevOutlier where
  metric : String
  deviation_type : String
deriving DecidableEq

/-- The aggregate suggestions. Each constructor stands for one of the fixed
suggestion template strings the function can append, in source order; the
free-text wording is irrelevant to the aggregation logic and abstracted to a
tag, while the dynamically computed payloads (digit lists, phase digits) are
kept. `minorOnly` is the fallback appended when no other suggestion fired. -/
inductive Suggestion where
  | digitBias (favorite avoided : List String)
  | patternRegularity
  | dependencyChain
  | variationPattern
  | redundancyHigh
  | collectionIssue
  | phaseLength (phases : List String)
  | minorOnly
deriving DecidableEq

def freqMark : String := "freq_"

def couponMark : String := "coupon"

def plMark : String := "pl"

def devTypeHigh : String := "high"

def devTypeLow : String := "low"

def patternNames : List String := [r"adjacent", r"rp", r"pl1", r"pl2", r"pl3"]

def dependencyNames : List String := [r"autocorr_lag1", r"adjacent", r"repetition_gap_mean"]

def variationNames : List String := [r"tpi", r"adjacent_diff_mean", r"adjacent_diff_std"]

/-- The aggregation logic of `generate_improvement_suggestions`: note the
frequency branch requires `len(freq_outliers) > 3`, i.e. at least four,
while the remaining group branches use `>= 2` (or `> 0` / `any`). -/
def generate_improvement_suggestions (outliers : List DevOutlier) : List Suggestion :=
  let freqOutliers := outliers.filter (fun o => o.metric.startsWith freqMark)
  let s1 : List Suggestion :=
    if freqOutliers.length > 3 then
      [Suggestion.digitBias
        ((freqOutliers.filter (fun o => o.deviation_type == devTypeHigh)).map
          (fun o => o.metric.drop 5))
        ((freqOutliers.filter (fun o => o.deviation_type == devTypeLow)).map
          (fun o => o.metric.drop 5))]
    else []
  let patternOutliers := outliers.filter (fun o => patternNames.contains o.metric)
  let s2 : List Suggestion :=
    if patternOutliers.length ≥ 2 then [Suggestion.patternRegularity] else []
  let dependencyOutliers := outliers.filter (fun o => dependencyNames.contains o.metric)
  let s3 : List Suggestion :=
    if dependencyOutliers.length ≥ 2 then [Suggestion.dependencyChain] else []
  let variationOutliers := outliers.filter (fun o => variationNames.contains o.metric)
  let s4 : List Suggestion :=
    if variationOutliers.length ≥ 2 then [Suggestion.variationPattern] else []
  let s5 : List Suggestion :=
    if outliers.any (fun o => o.metric == redName) then [Suggestion.redundancyHigh] else []
  let collectionOutliers := outliers.filter (fun o => o.metric.startsWith couponMark)
  let s6 : List Suggestion :=
    if collectionOutliers.length > 0 then [Suggestion.collectionIssue] else []
  let phaseOutliers := outliers.filter (fun o => o.metric.startsWith plMark)
  let s7 : List Suggestion :=
    if phaseOutliers.length ≥ 2 then
      [Suggestion.phaseLength (phaseOutliers.map (fun o => (o.metric.drop 2).take 1))]
    else []
  let all := s1 ++ s2 ++ s3 ++ s4 ++ s5 ++ s6 ++ s7
  if all = [] then [Suggestion.minorOnly] else all

def isDigitBias : Suggestion → Bool
  | .digitBias _ _ => true
  | _ => false

theorem mem_if_empty_fallback {α : Type} [DecidableEq α] (l f : List α) (s : α)
    (h : s ∈ l) : s ∈ (if l = [] then f else l) := by
  rw [if_neg (List.ne_nil_of_mem h)]
  exact h

def cxOutliers : List DevOutlier :=
  [⟨r"freq_0", r"high"⟩, ⟨r"freq_1", r"high"⟩, ⟨r"freq_2", r"low"⟩]

/-- C9 counterexample: a list with exactly three freq_ outliers (and no other
outliers) does not trigger the combined digit-bias suggestion — the code
requires strictly more than three. -/
theorem suggestions_freq_three_counterexample :
    (cxOutliers.filter (fun o => o.metric.startsWith freqMark)).length = 3 ∧
    (∀ s ∈ generate_improvement_suggestions cxOutliers, isDigitBias s = false) := by
  with_unfolding_all decide

/-- C9 (amended): strictly more than three (i.e. at least four) freq_
outliers put the combined digit-bias suggestion in the output, and at least
two outliers among the pattern metrics (adjacent, rp, pl1, pl2, pl3) put
the pattern suggestion in the output. -/
theorem suggestions_thresholds (outliers : List DevOutlier) :
    (3 < (outliers.filter (fun o => o.metric.startsWith freqMark)).length →
      ∃ s ∈ generate_improvement_suggestions outliers, isDigitBias s = true) ∧
    (2 ≤ (outliers.filter (fun o => patternNames.contains o.metric)).length →
      Suggestion.patternRegularity ∈ generate_improvement_suggestions outliers) := by
  constructor
  · intro h
    simp only [generate_improvement_suggestions]
    rw [if_pos h]
    exact ⟨_, mem_if_empty_fallback _ _ _
      (List.mem_append_left _ (List.mem_append_left _ (List.mem_append_left _
        (List.mem_append_left _ (List.mem_append_left _ (List.mem_append_left _
          (List.mem_singleton_self _))))))), rfl⟩
  · intro h
    simp only [generate_improvement_suggestions]
    rw [if_pos h]
    exact mem_if_empty_fallback _ _ _
      (List.mem_append_left _ (List.mem_append_left _ (List.mem_append_left _
        (List.mem_append_left _ (List.mem_append_left _ (List.mem_append_right _
          (List.mem_singleton_self _)))))))

def wOutliers : List DevOutlier :=
  [⟨r"freq_0", r"high"⟩, ⟨r"freq_1", r"high"⟩, ⟨r"freq_2", r"low"⟩,
   ⟨r"freq_3", r"low"⟩, ⟨r"adjacent", r"high"⟩, ⟨r"rp", r"high"⟩]

theorem suggestions_thresholds_witness :
    (∃ s ∈ generate_improvement_suggestions wOutliers, isDigitBias s = true) ∧
    Suggestion.patternRegularity ∈ generate_improvement_suggestions wOutliers :=
  ⟨(suggestions_thresholds wOutliers).1 (by with_unfolding_all decide),
   (suggestions_thresholds wOutliers).2 (by with_unfolding_all decide)⟩

/-! ## Embedding of `_pl_d` and its seeded simulation (metrics.py)

At import, `random.seed(42)` seeds the module-global generator once; every
later `random.randint(0, base - 1)` consumes the next draw of that single
stream. The embedding makes this ambient state explicit: `g n` is the value
returned by the (n+1)-th randint call since seeding (the concrete Mersenne
Twister outputs are opaque, so the development is parametric in the stream),
and each function carries the number `p` of draws consumed so far. -/

/-- `[z[i+1] - z[i] for i in range(len(z)-1)]`. -/
def seqDiffs (z : List ℤ) : List ℤ := (z.zip z.tail).map (fun q => q.2 - q.1)

/-- `_extract_tp_indices`: drop zero differences, then the positions `i ≥ 1`
where consecutive differences have opposite signs. -/
def tpIndices (z : List ℤ) : List ℕ :=
  let d := (seqDiffs z).filter (fun x => !(x == 0))
  (List.range d.length).filter
    (fun i => decide (1 ≤ i) && decide (d.getD (i - 1) 0 * d.getD i 0 < 0))

/-- The number of turning-point index gaps `tp[i] - tp[i-1]` equal to `d`. -/
def tpGapCount (tp : List ℕ) (d : ℕ) : ℕ :=
  ((tp.zip tp.tail).filter (fun q => (q.2 : ℤ) - (q.1 : ℤ) == (d : ℤ))).length

/-- One simulated `rand_seq`: the `m` draws consumed from stream position
`p` onwards. -/
def trialSeq (g : ℕ → ℕ) (m p : ℕ) : List ℕ := (List.range m).map (fun k => g (p + k))

/-- The gap-`d` count of one simulated sequence. -/
def trialTpCount (g : ℕ → ℕ) (m d p : ℕ) : ℕ :=
  tpGapCount (tpIndices ((trialSeq g m p).map (fun x => (x : ℤ)))) d

/-- The running total of `_empirical_expected_pl`: `t` remaining trials,
each consuming `m` draws. -/
def plTotal (g : ℕ → ℕ) (m d : ℕ) : ℕ → ℕ → ℕ
  | 0, _ => 0
  | t + 1, p => trialTpCount g m d p + plTotal g m d t (p + m)

/-- `_empirical_expected_pl(m, d, num_trials, base)`: the average gap-`d`
count over the simulated sequences, starting at stream position `p`. -/
def empiricalExpectedPl (g : ℕ → ℕ) (m d trials p : ℕ) : ℚ :=
  (plTotal g m d trials p : ℚ) / (trials : ℚ)

/-- `_pl_d(z, d, base)` with the stream position made explicit: the pair of
the returned value and the stream position after the call (`_pl_d` passes
`num_trials=1000`, so a non-short call consumes `1000 * len(z)` draws). -/
def pl_d (g : ℕ → ℕ) (z : List ℕ) (d : ℕ) (p : ℕ) : ℚ × ℕ :=
  let m := z.length
  if m < d + 3 then (0, p)
  else
    let observed := tpGapCount (tpIndices (z.map (fun x => (x : ℤ)))) d
    let expected := empiricalExpectedPl g m d 1000 p
    (if expected > 0 then (observed : ℚ) / expected else 0, p + 1000 * m)

/-- A possible randint-output stream: alternating 0, 1 for the first 4000
draws, constant 0 afterwards. -/
def gCx : ℕ → ℕ := fun n => if n < 4000 then n % 2 else 0

set_option maxRecDepth 10000

/-- C7 counterexample: two evaluations of pl1 on the same input `[0,1,0,1]`
within one process return different values (1, then 0), because the first
call consumes 4000 draws of the global stream and the second starts where
the first left off — the result is not a function of the input alone. -/
theorem pl_state_dependence_counterexample :
    (pl_d gCx [0, 1, 0, 1] 1 0).1 = 1 ∧
    (pl_d gCx [0, 1, 0, 1] 1 4000).1 = 0 ∧
    (pl_d gCx [0, 1, 0, 1] 1 0).1 ≠ (pl_d gCx [0, 1, 0, 1] 1 4000).1 := by
  with_unfolding_all decide

/-- The simulation total reads only the stream window it consumes. -/
theorem plTotal_congr (g1 g2 : ℕ → ℕ) (m d : ℕ) :
    ∀ (t p : ℕ), (∀ n, p ≤ n → n < p + t * m → g1 n = g2 n) →
      plTotal g1 m d t p = plTotal g2 m d t p := by
  intro t
  induction t with
  | zero => intro p _; rfl
  | succ k ih =>
    intro p h
    have hseq : trialSeq g1 m p = trialSeq g2 m p := by
      unfold trialSeq
      refine List.map_congr_left (fun j hj => ?_)
      have hjm : j < m := List.mem_range.mp hj
      refine h (p + j) (Nat.le_add_right p j) ?_
      have : (k + 1) * m = k * m + m := by ring
      omega
    have hrec := ih (p + m) (by
      intro n h1 h2
      refine h n (le_trans (Nat.le_add_right p m) h1) ?_
      have : (k + 1) * m = k * m + m := by ring
      omega)
    simp only [plTotal, trialTpCount, hseq, hrec]

/-- C7 (amended): a pl metric is a pure function of the input sequence, the
gap distance, and the consumed segment of the seeded stream. Two runs whose
streams agree on the consumed window — e.g. two freshly seeded processes
that have made the same calls so far, which is what the fixed global seed
guarantees — return identical values and identical final positions. Within
one process, however, a call advances the position, so repeated evaluation
on the same input is NOT deterministic (see the counterexample). -/
theorem pl_d_reproducible (g1 g2 : ℕ → ℕ) (z : List ℕ) (d p : ℕ)
    (h : ∀ n, p ≤ n → n < p + 1000 * z.length → g1 n = g2 n) :
    pl_d g1 z d p = pl_d g2 z d p := by
  by_cases hm : z.length < d + 3
  · simp only [pl_d, if_pos hm]
  · have htot : plTotal g1 z.length d 1000 p = plTotal g2 z.length d 1000 p :=
      plTotal_congr g1 g2 z.length d 1000 p (fun n h1 h2 => h n h1 h2)
    simp only [pl_d, if_neg hm, empiricalExpectedPl, htot]

/-- A second stream agreeing with `gCx` on the first 4000 draws only. -/
def gCx2 : ℕ → ℕ := fun n => if n < 4000 then n % 2 else 7

theorem pl_d_reproducible_witness :
    pl_d gCx [0, 1, 0, 1] 1 0 = pl_d gCx2 [0, 1, 0, 1] 1 0 :=
  pl_d_reproducible gCx gCx2 [0, 1, 0, 1] 1 0 (by
    intro n h1 h2
    have hn : n < 4000 := by simpa using h2
    simp [gCx, gCx2, hn])
